import Mathlib

set_option maxRecDepth 100000

/-!
# ClauseWise — verification of the clause segmentation and rule-based analysis engine

This file is a shallow embedding, in Lean 4, of the local (non-API) heuristics of the
ClauseWise repository:

* `src/app.py`                      — `classify_clause_type`
* `src/utils/document_processor.py` — `split_into_clauses`
* `src/utils/granite_client.py`     — `_enhanced_local_classification`,
                                      `_enhanced_local_simplification`,
                                      `_enhanced_local_entity_extraction`
* `src/utils/huggingface_client.py` — `_local_document_classification`,
                                      `_local_clause_simplification`,
                                      `_local_entity_extraction`, `_local_summarization`

Python strings are modelled as Lean `String`/`List Char` (the inputs of interest are
ASCII); Python floats appearing in confidences are modelled as exact rationals `ℚ`
(all values involved are small decimal constants, and only order comparisons and
equalities with such constants are stated).  Python's `max` over a dict with a key
function is modelled by an explicit left fold that keeps the first maximal element,
which is Python's documented tie-breaking behaviour.  The specific regular
expressions used by the entity extractors are compiled by hand into deterministic
scanners that follow the leftmost-match / first-alternative / greedy semantics of
Python's `re` module on these patterns.  Bounded recursion over character lists is
expressed with an explicit fuel argument equal to the input length (every step of
each scanner consumes at least one character, so the fuel is never exhausted).
-/

namespace ClauseWise

/-! ## Python string primitives -/

/-- Python `str.lower()` (ASCII). -/
def pyLower (s : String) : String := ⟨s.data.map Char.toLower⟩

/-- Python `str.upper()` (ASCII). -/
def pyUpper (s : String) : String := ⟨s.data.map Char.toUpper⟩

/-- Python's substring test `pat in s` on character lists: `[]` is contained in
everything, otherwise `pat` must be a prefix of some suffix of `s`. -/
def listContains : List Char → List Char → Bool
  | _, [] => true
  | [], _ :: _ => false
  | c :: cs, p :: ps => ((p :: ps).isPrefixOf (c :: cs)) || listContains cs (p :: ps)

/-- Python's `pat in s` substring containment. -/
def strContains (s pat : String) : Bool := listContains s.data pat.data

/-- Python `'sep'.join(l)`. -/
def pyJoin (sep : String) : List String → String
  | [] => ""
  | [x] => x
  | x :: y :: t => x ++ sep ++ pyJoin sep (y :: t)

/-- Fuel-driven worker for Python `s.split(sep)` with a non-empty separator:
scan left to right, emitting the accumulator whenever `sep` is a prefix of the
remaining input.  The fuel is one more than the input length; every step either
consumes at least one character or terminates. -/
def pySplitAux (sep : List Char) : Nat → List Char → List Char → List (List Char)
  | 0, acc, l => [acc.reverse ++ l]
  | _ + 1, acc, [] => [acc.reverse]
  | n + 1, acc, c :: cs =>
    if sep.isPrefixOf (c :: cs) && !sep.isEmpty then
      acc.reverse :: pySplitAux sep n [] ((c :: cs).drop sep.length)
    else
      pySplitAux sep n (c :: acc) cs

/-- Python `s.split(sep)` for a non-empty separator. -/
def pySplitOn (s sep : String) : List String :=
  (pySplitAux sep.data (s.data.length + 1) [] s.data).map (fun l => ⟨l⟩)

/-- Characters treated as whitespace by the Python fragments we embed
(the documents of interest are ASCII). -/
def isWs (c : Char) : Bool := c = ' ' || c = '\t' || c = '\n' || c = '\r'

/-- Python `str.strip()` (ASCII whitespace). -/
def pyStrip (s : String) : String :=
  ⟨(s.data.dropWhile isWs).reverse.dropWhile isWs |>.reverse⟩

/-- Worker for `re.sub(r'\s+', ' ', s)`: collapse every maximal whitespace run to
a single space.  The boolean records whether the previous character was part of a
whitespace run. -/
def collapseWsAux : Bool → List Char → List Char
  | _, [] => []
  | prev, c :: cs =>
    if isWs c then
      if prev then collapseWsAux true cs else ' ' :: collapseWsAux true cs
    else
      c :: collapseWsAux false cs

/-- `re.sub(r'\s+', ' ', s)`. -/
def collapseWs (s : String) : String := ⟨collapseWsAux false s.data⟩

/-! ## `app.py` — `classify_clause_type` -/

/-- `classify_clause_type` from `src/app.py` (lines 225–244): an ordered chain of
case-insensitive keyword tests; the first matching rule wins, `"General"` is the
fallback. -/
def classify_clause_type (clause : String) : String :=
  let cl := pyLower clause
  if strContains cl "confidential" || strContains cl "non-disclosure" then "Confidentiality"
  else if strContains cl "termination" || strContains cl "terminate" then "Termination"
  else if strContains cl "payment" || strContains cl "pay" || strContains cl "fee" then "Payment"
  else if strContains cl "liability" || strContains cl "responsible" then "Liability"
  else if strContains cl "breach" || strContains cl "default" then "Breach"
  else if strContains cl "governing law" || strContains cl "jurisdiction" then "Governing Law"
  else if strContains cl "dispute" || strContains cl "arbitration" then "Dispute Resolution"
  else "General"

/-! ## Python `max` with a key function -/

/-- Python's `max(items, key=snd)` over a non-empty list, written as the fold that
CPython performs: the current best is replaced only when a later element is
*strictly* greater, so the first maximal element wins ties. -/
def pyMaxBySnd : (String × Nat) → List (String × Nat) → (String × Nat)
  | best, [] => best
  | best, x :: xs => pyMaxBySnd (if x.2 > best.2 then x else best) xs

/-- `max` over a possibly-empty list (`max` of an empty dict never occurs in the
code paths we embed, but the Python sources guard on dict non-emptiness, which we
mirror with `Option`). -/
def pyMaxList : List (String × Nat) → Option (String × Nat)
  | [] => none
  | x :: xs => some (pyMaxBySnd x xs)

/-! ## `granite_client.py` — `_enhanced_local_classification` -/

/-- Result record of `GraniteClient._enhanced_local_classification` (the fields
`success` and `model_used` are constants and omitted). -/
structure GraniteClassification where
  classification : String
  confidence : ℚ
  deriving Repr, DecidableEq

/-- The `doc_patterns` table of `_enhanced_local_classification`
(`src/utils/granite_client.py` lines 72–97); every pattern has weight `1.0`, so a
type's score is the number of its keywords occurring in the lowered text. -/
def graniteDocPatterns : List (String × List String) :=
  [("NDA", ["confidential", "non-disclosure", "proprietary", "trade secret", "nda"]),
   ("Employment Contract",
     ["employment", "employee", "hire", "termination", "salary", "compensation", "work"]),
   ("Lease Agreement",
     ["lease", "rent", "tenant", "landlord", "property", "premises", "rental"]),
   ("Service Agreement",
     ["service", "vendor", "provider", "deliverable", "scope", "consulting"]),
   ("Purchase Agreement",
     ["purchase", "buy", "sale", "payment", "delivery", "goods", "product"]),
   ("Partnership Agreement",
     ["partnership", "partner", "joint venture", "collaboration", "cooperation"])]

/-- Keyword score of one document type: `sum(weight for keyword in keywords if
keyword in text_lower)` with weight `1.0`, i.e. the count of matching keywords. -/
def keywordScore (textLower : String) (keywords : List String) : Nat :=
  (keywords.filter (fun k => strContains textLower k)).length

/-- The `scores` association list built by `_enhanced_local_classification`, in the
insertion order of `doc_patterns`. -/
def graniteScores (text : String) : List (String × Nat) :=
  graniteDocPatterns.map (fun p => (p.1, keywordScore (pyLower text) p.2))

/-- `GraniteClient._enhanced_local_classification` (lines 67–122).  `if scores:`
tests dict non-emptiness, mirrored by the `Option` match; the `"General Contract"`
branch is reachable only from an empty score map. -/
def graniteLocalClassification (text : String) : GraniteClassification :=
  match pyMaxList (graniteScores text) with
  | some best => { classification := best.1, confidence := min ((best.2 : ℚ) / 3) 1 }
  | none => { classification := "General Contract", confidence := 3 / 10 }

/-! ## `huggingface_client.py` — `_local_document_classification` -/

/-- Result record of `HuggingFaceClient._local_document_classification` (constant
fields omitted). -/
structure HFClassification where
  document_type : String
  confidence : ℚ
  deriving Repr, DecidableEq

/-- The `doc_types` table of `_local_document_classification`
(`src/utils/huggingface_client.py` lines 129–135). -/
def hfDocTypes : List (String × List String) :=
  [("Non-Disclosure Agreement (NDA)",
     ["confidential", "non-disclosure", "nda", "trade secret", "proprietary"]),
   ("Employment Contract",
     ["employment", "employee", "salary", "benefits", "termination", "work"]),
   ("Lease Agreement", ["lease", "rent", "tenant", "landlord", "property", "premises"]),
   ("Service Agreement", ["service", "provider", "client", "scope of work", "deliverables"]),
   ("Purchase Agreement", ["purchase", "buy", "seller", "buyer", "payment", "delivery"])]

/-- The `scores` association list of `_local_document_classification`. -/
def hfScores (text : String) : List (String × Nat) :=
  hfDocTypes.map (fun p => (p.1, keywordScore (pyLower text) p.2))

/-- `HuggingFaceClient._local_document_classification` (lines 124–151):
`best_type = max(scores, key=scores.get)`, then
`confidence = min(0.95, max(0.6, scores[best_type] / 5))`.  The `"Legal Document"`
default applies only when the score dict is empty, which never happens since
`doc_types` is a non-empty literal (on that dead branch the Python code would in
fact raise `KeyError` at `scores[best_type]`; we give the dead branch confidence
`0`). -/
def hfLocalDocumentClassification (text : String) : HFClassification :=
  match pyMaxList (hfScores text) with
  | some best =>
      { document_type := best.1
        confidence := min (95 / 100 : ℚ) (max (6 / 10) ((best.2 : ℚ) / 5)) }
  | none => { document_type := "Legal Document", confidence := 0 }

/-! ## `document_processor.py` — `split_into_clauses` -/

/-- Python `s.startswith(pre)`. -/
def pyStartsWith (s pre : String) : Bool := pre.data.isPrefixOf s.data

/-- The `clause_markers` list of `split_into_clauses`
(`src/utils/document_processor.py` lines 122–135). -/
def clauseMarkers : List String :=
  ["WHEREAS", "NOW, THEREFORE", "IN WITNESS WHEREOF", "SECTION",
   "ARTICLE", "CLAUSE", "PROVIDED", "PROVIDED THAT", "FURTHER",
   "ADDITIONALLY", "MOREOVER", "FURTHERMORE", "IN ADDITION",
   "THEREFORE", "HEREBY", "AGREES", "AGREED", "PARTIES",
   "DEFINITIONS", "SCOPE", "TERM", "TERMINATION", "LIABILITY",
   "INDEMNIFICATION", "CONFIDENTIALITY", "NON-DISCLOSURE",
   "PAYMENT", "COMPENSATION", "BENEFITS", "DUTIES", "OBLIGATIONS",
   "REPRESENTATIONS", "WARRANTIES", "COVENANTS", "CONDITIONS",
   "DEFAULT", "BREACH", "REMEDIES", "DISPUTE", "ARBITRATION",
   "GOVERNING LAW", "JURISDICTION", "AMENDMENT", "WAIVER",
   "SEVERABILITY", "ENTIRE AGREEMENT", "FORCE MAJEURE",
   "NOTICES", "ASSIGNMENT", "SUCCESSORS", "COUNTERPARTS"]

def isAsciiLower (c : Char) : Bool := 'a' ≤ c && c ≤ 'z'

def isAsciiUpper (c : Char) : Bool := 'A' ≤ c && c ≤ 'Z'

/-- The `numbered_patterns` anchored regexes of `split_into_clauses`
(lines 138–144): `^\d+\.`, `^[a-z]\)`, `^[A-Z]\.`, `^\([a-z]\)`, `^\([A-Z]\)`,
checked with `re.match` (anchored at the start of the line). -/
def matchesNumberedPattern (line : String) : Bool :=
  let l := line.data
  (let ds := l.takeWhile Char.isDigit
   !ds.isEmpty &&
     (match l.drop ds.length with
      | '.' :: _ => true
      | _ => false)) ||
  (match l with
   | a :: b :: _ => isAsciiLower a && b = ')'
   | _ => false) ||
  (match l with
   | a :: b :: _ => isAsciiUpper a && b = '.'
   | _ => false) ||
  (match l with
   | p :: a :: q :: _ => p = '(' && isAsciiLower a && q = ')'
   | _ => false) ||
  (match l with
   | p :: a :: q :: _ => p = '(' && isAsciiUpper a && q = ')'
   | _ => false)

/-- Python `str.isupper()` (ASCII): at least one cased character and no lowercase
cased character. -/
def pyIsUpper (s : String) : Bool :=
  s.data.any Char.isAlpha && s.data.all (fun c => !isAsciiLower c)

/-- Sentence terminators of the `re.split(r'[.!?]+', …)` call in
`split_into_clauses`. -/
def isSentTerm (c : Char) : Bool := c = '.' || c = '!' || c = '?'

/-- Worker for `re.split(r'[.!?]+', s)`: split on maximal runs of sentence
terminators.  `inRun` records whether the previous character belonged to a
terminator run (so that a run of several terminators produces a single split). -/
def splitTermAux : Bool → List Char → List Char → List (List Char)
  | _, cur, [] => [cur.reverse]
  | inRun, cur, c :: cs =>
    if isSentTerm c then
      if inRun then splitTermAux true cur cs
      else cur.reverse :: splitTermAux true [] cs
    else splitTermAux false (c :: cur) cs

/-- `re.split(r'[.!?]+', s)`. -/
def splitSentenceRuns (s : String) : List String :=
  (splitTermAux false [] s.data).map (fun l => ⟨l⟩)

/-- The overlong-buffer handling of `split_into_clauses` (lines 172–186): once the
accumulated clause exceeds `max_length`, split it at the middle sentence boundary
when at least two sentences exist, otherwise flush the whole buffer as one clause
and reset. -/
def handleOverflow (maxLen : Nat) (clauses : List String) (cur : String) :
    List String × String :=
  if cur.length > maxLen then
    let sentences := splitSentenceRuns cur
    if sentences.length > 1 then
      let mid := sentences.length / 2
      (clauses ++ [pyStrip (pyJoin ". " (sentences.take mid) ++ ".")],
        pyJoin ". " (sentences.drop mid))
    else (clauses ++ [pyStrip cur], "")
  else (clauses, cur)

/-- One iteration of the `for line in lines:` loop of `split_into_clauses`
(lines 152–186): strip the line, skip blanks, close the current clause at marker /
numbered / heading boundaries, otherwise space-join, then apply the overlong-buffer
handling. -/
def processLine (maxLen : Nat) (st : List String × String) (rawLine : String) :
    List String × String :=
  let line := pyStrip rawLine
  if line = "" then st
  else
    let isClauseStart := clauseMarkers.any (fun m => pyStartsWith (pyUpper line) m)
    let isNumberedStart := matchesNumberedPattern line
    let isParagraphBreak := decide (line.length < 50) && pyIsUpper line
    let next :=
      if (isClauseStart || isNumberedStart || isParagraphBreak) && !(st.2 == "") then
        (st.1 ++ [pyStrip st.2], line)
      else
        (st.1, if st.2 == "" then line else st.2 ++ " " ++ line)
    handleOverflow maxLen next.1 next.2

/-- `DocumentProcessor.split_into_clauses` (`src/utils/document_processor.py`
lines 119–200): fold the per-line step over the newline-split input, flush the
final buffer, then keep only clauses whose *stripped* length exceeds 20, collapsing
internal whitespace runs in the survivors. -/
def split_into_clauses (text : String) (maxLen : Nat) : List String :=
  let res := (pySplitOn text "\n").foldl (processLine maxLen) ([], "")
  let clauses := if res.2 = "" then res.1 else res.1 ++ [pyStrip res.2]
  clauses.filterMap (fun c =>
    let c' := pyStrip c
    if 20 < c'.length then some (collapseWs c') else none)

/-! ## `granite_client.py` — `_enhanced_local_simplification` -/

/-- Fuel-driven worker for Python `s.replace(old, new)` with a non-empty `old`:
left-to-right, non-overlapping replacement of every occurrence.  The fuel is the
input length; every step consumes at least one character. -/
def pyReplaceAux (pat rep : List Char) : Nat → List Char → List Char
  | 0, l => l
  | _ + 1, [] => []
  | n + 1, c :: cs =>
    if pat.isPrefixOf (c :: cs) && !pat.isEmpty then
      rep ++ pyReplaceAux pat rep n ((c :: cs).drop pat.length)
    else
      c :: pyReplaceAux pat rep n cs

/-- Python `s.replace(old, new)` (for the non-empty `old`s used by the code). -/
def pyReplace (s pat rep : String) : String :=
  ⟨pyReplaceAux pat.data rep.data s.data.length s.data⟩

/-- Worker for Python `str.title()` (ASCII): uppercase every letter that follows a
non-letter, lowercase the rest; the boolean records whether the previous character
was a (cased) letter. -/
def pyTitleAux : Bool → List Char → List Char
  | _, [] => []
  | prev, c :: cs =>
    if c.isAlpha then
      (if prev then c.toLower else c.toUpper) :: pyTitleAux true cs
    else
      c :: pyTitleAux false cs

/-- Python `str.title()` (ASCII). -/
def pyTitle (s : String) : String := ⟨pyTitleAux false s.data⟩

/-- The `legal_replacements` table of `_enhanced_local_simplification`
(`src/utils/granite_client.py` lines 167–218), in source (dict insertion) order. -/
def graniteReplacements : List (String × String) :=
  [("hereinafter", "from now on"),
   ("whereas", "since"),
   ("aforesaid", "mentioned above"),
   ("pursuant to", "according to"),
   ("notwithstanding", "despite"),
   ("in witness whereof", "to confirm this"),
   ("party of the first part", "first party"),
   ("party of the second part", "second party"),
   ("hereby", "by this"),
   ("herein", "in this document"),
   ("hereto", "to this"),
   ("hereof", "of this"),
   ("thereof", "of that"),
   ("therein", "in that"),
   ("thereto", "to that"),
   ("subject to", "depending on"),
   ("in accordance with", "following"),
   ("for the avoidance of doubt", "to be clear"),
   ("save and except", "except"),
   ("mutatis mutandis", "with necessary changes"),
   ("inter alia", "among other things"),
   ("prima facie", "at first glance"),
   ("de facto", "in fact"),
   ("de jure", "by law"),
   ("ex parte", "from one side"),
   ("in camera", "in private"),
   ("sub judice", "under consideration"),
   ("ultra vires", "beyond authority"),
   ("bona fide", "in good faith"),
   ("mala fide", "in bad faith"),
   ("force majeure", "unforeseen circumstances"),
   ("ipso facto", "by that very fact"),
   ("per se", "by itself"),
   ("ad hoc", "for this specific purpose"),
   ("pro rata", "proportionally"),
   ("quid pro quo", "something for something"),
   ("status quo", "current situation"),
   ("vice versa", "the other way around"),
   ("et al", "and others"),
   ("i.e.", "that is"),
   ("e.g.", "for example"),
   ("viz.", "namely"),
   ("cf.", "compare"),
   ("ibid", "same source"),
   ("op. cit.", "work cited"),
   ("loc. cit.", "place cited"),
   ("supra", "above"),
   ("infra", "below"),
   ("ante", "before"),
   ("post", "after")]

/-- The raw-substring replacement phase of `_enhanced_local_simplification`
(lines 220–225): for each table entry, `simplified.replace(term, simple)` followed
by `simplified.replace(term.title(), simple.title())` — no word-boundary check. -/
def graniteApplyReplacements (s : String) : String :=
  graniteReplacements.foldl
    (fun acc p => pyReplace (pyReplace acc p.1 p.2) (pyTitle p.1) (pyTitle p.2)) s

/-- The `connectors` list of the long-sentence splitting phase (line 234). -/
def graniteConnectors : List String :=
  [" and ", " or ", " but ", " however ", " furthermore ", " moreover ", " additionally "]

/-- The long-sentence splitting of lines 227–245: a sentence longer than 100
characters is split on *all* occurrences of the first connector that occurs in it
(the `for … break / else` idiom); if no connector occurs, it is kept intact. -/
def graniteSplitLongSentence (sentence : String) : List String :=
  match graniteConnectors.find? (fun c => strContains sentence c) with
  | some c => pySplitOn sentence c
  | none => [sentence]

/-- The sentence-decomposition phase of `_enhanced_local_simplification`
(lines 227–245): split on `'.'`, split overlong sentences at connectors, rejoin
with `". "`. -/
def graniteSentencePhase (s : String) : String :=
  pyJoin ". "
    ((pySplitOn s ".").flatMap
      (fun sentence =>
        if 100 < sentence.length then graniteSplitLongSentence sentence
        else [sentence]))

/-- The `complex_terms` explanation table of lines 248–271: term and the
explanation sentence appended when the term occurs in the simplified text. -/
def graniteComplexTermExplanations : List (String × String) :=
  [("liability", "'liability' means legal responsibility for damages"),
   ("indemnification", "'indemnification' means protection against legal claims"),
   ("breach", "'breach' means violation of the agreement"),
   ("termination", "'termination' means ending the agreement"),
   ("jurisdiction", "'jurisdiction' means which court system applies"),
   ("arbitration", "'arbitration' means dispute resolution outside of court"),
   ("governing law", "'governing law' means which state's laws apply"),
   ("force majeure",
     "'force majeure' means unforeseeable circumstances that prevent performance")]

/-- The fixed prose appended by the summary section (lines 277–279). -/
def graniteSummaryHeader : String :=
  "\n\nSUMMARY:\nThis document has been simplified to make it easier to understand. The key points are:\n"

/-- The key-point bullets of lines 282–290, computed over the lowered text
accumulated so far (which at that point already includes the summary header). -/
def graniteKeyPoints (low : String) : List String :=
  (if strContains low "shall" || strContains low "must" then
    ["- Contains obligations that must be followed"] else []) ++
  (if strContains low "liability" then ["- Discusses legal responsibility"] else []) ++
  (if strContains low "termination" then ["- Explains how the agreement can end"] else []) ++
  (if strContains low "payment" || strContains low "compensation" then
    ["- Contains payment terms"] else [])

/-- The state of `simplified` right before the key-point bullets are appended
(lines 164–279): raw replacements, sentence splitting, optional key-term
explanations, then the unconditional summary header. -/
def graniteSimplificationBase (text : String) : String :=
  let s2 := graniteSentencePhase (graniteApplyReplacements text)
  let explanations :=
    graniteComplexTermExplanations.filterMap
      (fun p => if strContains (pyLower s2) p.1 then some p.2 else none)
  let s3 :=
    if explanations.isEmpty then s2
    else s2 ++ "\n\nKey terms explained: " ++ pyJoin "; " explanations
  s3 ++ graniteSummaryHeader

/-- `GraniteClient._enhanced_local_simplification` (lines 164–302), the
`"simplified"` field of its result: raw replacements, sentence splitting, optional
key-term explanations, then an unconditional summary section with key-point
bullets (or a fixed review line when no bullet applies). -/
def graniteLocalSimplification (text : String) : String :=
  let s4 := graniteSimplificationBase text
  let kp := graniteKeyPoints (pyLower s4)
  if kp.isEmpty then s4 ++ "- Review all terms carefully before signing"
  else s4 ++ pyJoin "\n" kp

/-! ## `huggingface_client.py` — `_local_clause_simplification` -/

/-- Python regex word characters (`\w`, ASCII). -/
def isWordChar (c : Char) : Bool := c.isAlpha || c.isDigit || c = '_'

/-- Case-insensitive literal match of `pat` (stored lowercase) against the head of
`l`. -/
def matchesCI (pat l : List Char) : Bool :=
  (l.take pat.length).map Char.toLower == pat

/-- The `\b` check after a matched pattern: end of input or a non-word
character. -/
def boundaryAfterOk (pat l : List Char) : Bool :=
  match l.drop pat.length with
  | [] => true
  | d :: _ => !isWordChar d

/-- Fuel-driven worker for `re.sub(r'\bPAT\b', rep, s, flags=re.IGNORECASE)` for
the literal patterns used by `_local_clause_simplification` (all start and end
with a letter, so `\b` amounts to the neighbouring character not being a word
character).  The boolean records whether the previous character was a word
character; after a replacement the flag is taken from the last character of the
matched pattern, and scanning resumes after the match (re.sub does not rescan the
replacement).  The fuel is the input length; every step consumes at least one
character. -/
def replaceWordAux (pat rep : List Char) : Nat → Bool → List Char → List Char
  | 0, _, l => l
  | _ + 1, _, [] => []
  | n + 1, prevW, c :: cs =>
    if !prevW && matchesCI pat (c :: cs) && boundaryAfterOk pat (c :: cs) && !pat.isEmpty then
      rep ++
        replaceWordAux pat rep n
          (match pat.getLast? with
           | some d => isWordChar d
           | none => prevW)
          ((c :: cs).drop pat.length)
    else
      c :: replaceWordAux pat rep n (isWordChar c) cs

/-- One `re.sub(r'\bPAT\b', rep, s, flags=re.IGNORECASE)` pass. -/
def replaceWordCI (pat rep s : String) : String :=
  ⟨replaceWordAux pat.data rep.data s.data.length false s.data⟩

/-- The `replacements` table of `_local_clause_simplification`
(`src/utils/huggingface_client.py` lines 181–197), patterns in the (lowercase)
form they take inside the `\b…\b` regexes, in source order. -/
def hfReplacements : List (String × String) :=
  [("hereinafter", "from now on"),
   ("whereas", "since"),
   ("hereby", "by this"),
   ("thereof", "of this"),
   ("therein", "in this"),
   ("thereto", "to this"),
   ("aforesaid", "mentioned above"),
   ("subject to", "depending on"),
   ("provided that", "but only if"),
   ("in accordance with", "following"),
   ("notwithstanding", "despite"),
   ("for the avoidance of doubt", "to be clear"),
   ("without prejudice to", "without affecting"),
   ("save and except", "except for"),
   ("null and void", "completely invalid")]

/-- The substitution phase of `_local_clause_simplification` (lines 199–200). -/
def hfApplyReplacements (s : String) : String :=
  hfReplacements.foldl (fun acc p => replaceWordCI p.1 p.2 acc) s

/-- Try to match `\s+(and|or|but)\s+` at the head of `l`; on success return the
captured conjunction and the remaining input after the (greedy) trailing
whitespace. -/
def tryConjAt (l : List Char) : Option (String × List Char) :=
  let ws := l.takeWhile isWs
  if ws.isEmpty then none
  else
    let l1 := l.drop ws.length
    let tryWord := fun (w : String) =>
      if w.data.isPrefixOf l1 then
        let l2 := l1.drop w.data.length
        let ws2 := l2.takeWhile isWs
        if ws2.isEmpty then none else some (w, l2.drop ws2.length)
      else none
    match tryWord "and" with
    | some r => some r
    | none =>
      match tryWord "or" with
      | some r => some r
      | none => tryWord "but"

/-- Find the leftmost occurrence of `\s+(and|or|but)\s+`; return the text before
it, the captured conjunction, and the text after it. -/
def findConjAux : List Char → Option (List Char × String × List Char)
  | [] => none
  | c :: cs =>
    match tryConjAt (c :: cs) with
    | some (w, post) => some ([], w, post)
    | none =>
      match findConjAux cs with
      | some (pre, w, post) => some (c :: pre, w, post)
      | none => none

/-- Fuel-driven worker for `re.split(r'\s+(and|or|but)\s+', s)`: because the
pattern has a capturing group, the captured conjunctions appear in the output
list between the split parts. -/
def conjSplitAux : Nat → List Char → List String
  | 0, l => [⟨l⟩]
  | n + 1, l =>
    match findConjAux l with
    | none => [⟨l⟩]
    | some (pre, w, post) => (⟨pre⟩ : String) :: w :: conjSplitAux n post

/-- `re.split(r'\s+(and|or|but)\s+', s)`. -/
def hfConjSplit (s : String) : List String := conjSplitAux s.data.length s.data

/-- The per-sentence step of the long-sentence loop of
`_local_clause_simplification` (lines 204–214): a sentence longer than 100
characters contributes the conjunction-split parts when the split produced more
than one part, otherwise the sentence itself. -/
def hfSentenceSplit (sentence : String) : List String :=
  if 100 < sentence.length then
    if (hfConjSplit sentence).length > 1 then hfConjSplit sentence else [sentence]
  else [sentence]

/-- `HuggingFaceClient._local_clause_simplification` (lines 176–223), the
`"simplified"` field of its result: word-boundary case-insensitive term
substitution, then split on `". "`, splitting sentences longer than 100
characters at conjunctions (the captured conjunctions become list elements),
rejoined with `". "`. -/
def hfLocalClauseSimplification (clause : String) : String :=
  pyJoin ". " ((pySplitOn (hfApplyReplacements clause) ". ").flatMap hfSentenceSplit)

/-! ## `huggingface_client.py` — `_local_summarization` -/

/-- The `legal_terms` scoring list of `_local_summarization`
(`src/utils/huggingface_client.py` line 472). -/
def summaryLegalTerms : List String :=
  ["shall", "must", "agree", "obligated", "liable", "terminate", "breach",
   "damages", "confidential", "non-disclosure"]

/-- The per-sentence score of `_local_summarization` (lines 467–479): 2 per legal
term contained in the lowered sentence, plus 1 when the sentence length is
strictly between 20 and 100. -/
def sentenceScore (sentence : String) : Nat :=
  2 * (summaryLegalTerms.filter (fun t => strContains (pyLower sentence) t)).length +
    (if 20 < sentence.length ∧ sentence.length < 100 then 1 else 0)

/-- Stable descending insertion by score: an element is placed before the first
element whose score does not exceed it, so earlier elements stay before
equal-scored later ones — the behaviour of Python's stable
`list.sort(key=…, reverse=True)`. -/
def insertDesc (x : String × Nat) : List (String × Nat) → List (String × Nat)
  | [] => [x]
  | y :: ys => if x.2 ≥ y.2 then x :: y :: ys else y :: insertDesc x ys

/-- `sentence_scores.sort(key=lambda x: x[1], reverse=True)` — a stable sort by
score, descending (stable sorts of a list under a fixed comparison are unique, so
insertion sort is a faithful model of Python's Timsort here). -/
def sortDescBySnd (l : List (String × Nat)) : List (String × Nat) :=
  l.foldr insertDesc []

/-- The scored sentence list of `_local_summarization` (lines 463–479). -/
def scoredSentences (text : String) : List (String × Nat) :=
  (pySplitOn text ".").map (fun s => (s, sentenceScore s))

/-- `HuggingFaceClient._local_summarization` (lines 460–491), the `"summary"`
field of its result: split on `'.'`, score, sort descending by score (stable),
take the first five sentences, join with `". "` and append a final `"."`. -/
def hfLocalSummarization (text : String) : String :=
  pyJoin ". " (((sortDescBySnd (scoredSentences text)).take 5).map Prod.fst) ++ "."

/-! ## Entity extraction — hand-compiled scanners for the `re.findall` patterns

Python's `re.findall` with these patterns returns the leftmost, non-overlapping
matches, trying alternatives in source order and quantifiers greedily (giving
back characters only where a later part of the pattern fails).  None of the
patterns below contains a capturing group, so `findall` returns whole matches.
Each pattern is compiled by hand into a deterministic scanner that follows that
strategy; the bounded "give back" of `\d{1,2}` / `\d{2,4}` and of the greedy
character-class run before an organization suffix is realised by trying the
admissible lengths in decreasing order. -/

/-- First success of `f` over a list of alternatives, in order. -/
def firstSome {α β : Type} (f : α → Option β) : List α → Option β
  | [] => none
  | a :: as =>
    match f a with
    | some b => some b
    | none => firstSome f as

/-- Greedy `\d+`. -/
def takeDigits (l : List Char) : List Char × List Char :=
  (l.takeWhile Char.isDigit, l.dropWhile Char.isDigit)

/-- Exactly `k` digits (`\d{k}`), as one backtracking alternative. -/
def tryDigits (k : Nat) (l : List Char) : Option (List Char × List Char) :=
  let ds := l.take k
  if ds.length = k && ds.all Char.isDigit then some (ds, l.drop k) else none

/-- Greedy `(?:,\d{3})*`: repeatedly consume a comma followed by exactly three
digits.  The fuel is the input length. -/
def commaGroups : Nat → List Char → List Char × List Char
  | 0, l => ([], l)
  | n + 1, l =>
    match l with
    | ',' :: d1 :: d2 :: d3 :: rest =>
      if d1.isDigit && d2.isDigit && d3.isDigit then
        let (gs, r) := commaGroups n rest
        (',' :: d1 :: d2 :: d3 :: gs, r)
      else ([], l)
    | _ => ([], l)

/-- Optional `(?:\.\d{2})?`: a dot followed by exactly two digits, if present. -/
def dotCents (l : List Char) : List Char × List Char :=
  match l with
  | '.' :: a :: b :: r => if a.isDigit && b.isDigit then (['.', a, b], r) else ([], l)
  | _ => ([], l)

/-- `\b` to the left of a match that starts with a word character: the previous
character (if any) is not a word character. -/
def wordBoundaryBefore (prev : Option Char) : Bool :=
  match prev with
  | none => true
  | some c => !isWordChar c

/-- `\b` to the right of a match that ends with a word character: end of input or
a non-word character. -/
def boundaryAfterList (l : List Char) : Bool :=
  match l with
  | [] => true
  | c :: _ => !isWordChar c

/-- Generic `re.findall` scanner for patterns without `\b` context: try the
pattern at each position, on success emit the match and continue after it,
otherwise advance one character.  Fuel is the input length (each step consumes at
least one character). -/
def scanAux (tryAt : List Char → Option (List Char × List Char)) :
    Nat → List Char → List String
  | 0, _ => []
  | _ + 1, [] => []
  | n + 1, c :: cs =>
    match tryAt (c :: cs) with
    | some (m, rest) => (⟨m⟩ : String) :: scanAux tryAt n rest
    | none => scanAux tryAt n cs

/-- Generic `re.findall` scanner for patterns whose applicability depends on the
preceding character (leading `\b`). -/
def scanPrevAux (tryAt : Option Char → List Char → Option (List Char × List Char)) :
    Nat → Option Char → List Char → List String
  | 0, _, _ => []
  | _ + 1, _, [] => []
  | n + 1, prev, c :: cs =>
    match tryAt prev (c :: cs) with
    | some (m, rest) => (⟨m⟩ : String) :: scanPrevAux tryAt n m.getLast? rest
    | none => scanPrevAux tryAt n (some c) cs

/-- One attempt of the Hugging Face money pattern
`\$\d+(?:,\d{3})*(?:\.\d{2})?|\d+(?:,\d{3})*(?:\.\d{2})?\s*(?:dollars|USD)`
(`src/utils/huggingface_client.py` line 307). -/
def hfTryMoneyAt (l : List Char) : Option (List Char × List Char) :=
  match l with
  | '$' :: r =>
    let (ds, r1) := takeDigits r
    if ds.isEmpty then none
    else
      let (gs, r2) := commaGroups r1.length r1
      let (cs, r3) := dotCents r2
      some ('$' :: (ds ++ gs ++ cs), r3)
  | _ =>
    let (ds, r1) := takeDigits l
    if ds.isEmpty then none
    else
      let (gs, r2) := commaGroups r1.length r1
      let (cs, r3) := dotCents r2
      let ws := r3.takeWhile isWs
      let r4 := r3.drop ws.length
      if ("dollars".data).isPrefixOf r4 then
        some (ds ++ gs ++ cs ++ ws ++ "dollars".data, r4.drop 7)
      else if ("USD".data).isPrefixOf r4 then
        some (ds ++ gs ++ cs ++ ws ++ "USD".data, r4.drop 3)
      else none

/-- `re.findall` of the Hugging Face money pattern. -/
def hfFindMoney (text : String) : List String :=
  scanAux hfTryMoneyAt text.data.length text.data

def isDateSep (c : Char) : Bool := c = '/' || c = '-'

/-- One backtracking alternative of `\d{k1} SEP \d{k2} SEP \d{k3}` where `SEP`
is the class containing the slash and the dash. -/
def tryNumericDateLens (l : List Char) (k1 k2 k3 : Nat) :
    Option (List Char × List Char) :=
  match tryDigits k1 l with
  | none => none
  | some (d1, r1) =>
    match r1 with
    | s1 :: r2 =>
      if isDateSep s1 then
        match tryDigits k2 r2 with
        | none => none
        | some (d2, r3) =>
          match r3 with
          | s2 :: r4 =>
            if isDateSep s2 then
              match tryDigits k3 r4 with
              | none => none
              | some (d3, r5) => some (d1 ++ [s1] ++ d2 ++ [s2] ++ d3, r5)
            else none
          | [] => none
      else none
    | [] => none

/-- The greedy backtracking order of `\d{1,2} SEP \d{1,2} SEP \d{2,4}` (with
`SEP` the slash-or-dash class): larger digit counts first. -/
def numericDateLenChoices : List (Nat × Nat × Nat) :=
  [(2, 2, 4), (2, 2, 3), (2, 2, 2), (2, 1, 4), (2, 1, 3), (2, 1, 2),
   (1, 2, 4), (1, 2, 3), (1, 2, 2), (1, 1, 4), (1, 1, 3), (1, 1, 2)]

def monthNames : List String :=
  ["January", "February", "March", "April", "May", "June", "July", "August",
   "September", "October", "November", "December"]

/-- One attempt of `(?:Month)\s+\d{1,2},?\s+\d{4}` after the month's leading
`\b` has been checked by the caller; the trailing `\b` is checked when the
pattern requires it. -/
def tryMonthDate (checkAfter : Bool) (l : List Char) :
    Option (List Char × List Char) :=
  firstSome
    (fun m =>
      if (m.data).isPrefixOf l then
        let r1 := l.drop m.data.length
        let ws1 := r1.takeWhile isWs
        if ws1.isEmpty then none
        else
          let r2 := r1.drop ws1.length
          firstSome
            (fun k =>
              match tryDigits k r2 with
              | none => none
              | some (day, r3) =>
                let comma := match r3 with
                  | ',' :: _ => [',']
                  | _ => ([] : List Char)
                let r4 := r3.drop comma.length
                let ws2 := r4.takeWhile isWs
                if ws2.isEmpty then none
                else
                  let r5 := r4.drop ws2.length
                  match tryDigits 4 r5 with
                  | none => none
                  | some (yr, r6) =>
                    if checkAfter && !boundaryAfterList r6 then none
                    else some (m.data ++ ws1 ++ day ++ comma ++ ws2 ++ yr, r6))
            [2, 1]
      else none)
    monthNames

/-- One attempt of the Hugging Face date pattern
`\b\d{1,2} SEP \d{1,2} SEP \d{2,4}\b|\b(?:Month)\s+\d{1,2},?\s+\d{4}\b` (with
`SEP` the slash-or-dash class, line 297): both alternatives need a word boundary
on each side. -/
def hfTryDateAt (prev : Option Char) (l : List Char) :
    Option (List Char × List Char) :=
  if wordBoundaryBefore prev then
    match
      firstSome
        (fun t =>
          match tryNumericDateLens l t.1 t.2.1 t.2.2 with
          | some (m, rest) =>
            if boundaryAfterList rest then some (m, rest) else none
          | none => none)
        numericDateLenChoices
    with
    | some r => some r
    | none => tryMonthDate true l
  else none

/-- `re.findall` of the Hugging Face date pattern. -/
def hfFindDates (text : String) : List String :=
  scanPrevAux hfTryDateAt text.data.length none text.data

/-- The character class `[a-zA-Z\s&.,]` of the organization patterns. -/
def orgClassChar (c : Char) : Bool :=
  c.isAlpha || isWs c || c = '&' || c = '.' || c = ','

/-- One attempt of `\b[A-Z][a-zA-Z\s&.,]+(?:SUF1|…)\b` for a given suffix list:
after the initial capital, the greedy class run gives back characters one at a
time (longest first) until one of the suffix alternatives matches with a word
boundary after it. -/
def tryOrgAt (suffixes : List String) (prev : Option Char) (l : List Char) :
    Option (List Char × List Char) :=
  if !wordBoundaryBefore prev then none
  else
    match l with
    | [] => none
    | c :: r =>
      if isAsciiUpper c then
        let run := r.takeWhile orgClassChar
        firstSome
          (fun k =>
            firstSome
              (fun suf =>
                let pos := r.drop k
                if (suf.data).isPrefixOf pos &&
                    boundaryAfterList (pos.drop suf.data.length) then
                  some (c :: (r.take k ++ suf.data), pos.drop suf.data.length)
                else none)
              suffixes)
          (((List.range (run.length + 1)).reverse).filter (fun k => 1 ≤ k))
      else none

/-- Suffix alternation of the Hugging Face company pattern
`\b[A-Z][a-zA-Z\s&.,]+(?:Inc|Corp|LLC|Ltd|Company|Corporation)\b` (line 287). -/
def hfOrgSuffixes : List String := ["Inc", "Corp", "LLC", "Ltd", "Company", "Corporation"]

/-- `re.findall` of the Hugging Face company pattern. -/
def hfFindOrgs (text : String) : List String :=
  scanPrevAux (tryOrgAt hfOrgSuffixes) text.data.length none text.data

/-- Entity record of `HuggingFaceClient._local_entity_extraction`. -/
structure HFEntity where
  text : String
  type : String
  confidence : ℚ
  deriving Repr, DecidableEq

/-- `HuggingFaceClient._local_entity_extraction` (lines 282–320): organizations
(stripped, confidence 0.7), then dates (0.8), then monetary amounts (0.9), in the
order the code appends them. -/
def hfLocalEntityExtraction (text : String) : List HFEntity :=
  (hfFindOrgs text).map (fun o => ⟨pyStrip o, "ORGANIZATION", 7 / 10⟩) ++
    (hfFindDates text).map (fun d => ⟨d, "DATE", 8 / 10⟩) ++
    (hfFindMoney text).map (fun m => ⟨m, "MONEY", 9 / 10⟩)

/-- Optional plural: `dollars?` etc. — the literal stem followed by a greedy
optional `s`. -/
def tryStemOptS (stem : List Char) (l : List Char) : Option (List Char × List Char) :=
  if stem.isPrefixOf l then
    let r := l.drop stem.length
    match r with
    | 's' :: rr => some (stem ++ ['s'], rr)
    | _ => some (stem, r)
  else none

/-- One attempt of the Granite amount pattern
`\$[\d,]+(?:\.\d{2})?|\d+\s*(?:dollars?|USD|euros?|pounds?)`
(`src/utils/granite_client.py` line 357). -/
def graniteTryAmountAt (l : List Char) : Option (List Char × List Char) :=
  match l with
  | '$' :: r =>
    let run := r.takeWhile (fun c => c.isDigit || c = ',')
    if run.isEmpty then none
    else
      let (cs, r2) := dotCents (r.drop run.length)
      some ('$' :: (run ++ cs), r2)
  | _ =>
    let (ds, r1) := takeDigits l
    if ds.isEmpty then none
    else
      let ws := r1.takeWhile isWs
      let r2 := r1.drop ws.length
      match tryStemOptS ("dollar".data) r2 with
      | some (w, rr) => some (ds ++ ws ++ w, rr)
      | none =>
        if ("USD".data).isPrefixOf r2 then some (ds ++ ws ++ "USD".data, r2.drop 3)
        else
          match tryStemOptS ("euro".data) r2 with
          | some (w, rr) => some (ds ++ ws ++ w, rr)
          | none =>
            match tryStemOptS ("pound".data) r2 with
            | some (w, rr) => some (ds ++ ws ++ w, rr)
            | none => none

/-- `re.findall` of the Granite amount pattern. -/
def graniteFindAmounts (text : String) : List String :=
  scanAux graniteTryAmountAt text.data.length text.data

/-- One attempt of the Granite date pattern
`\d{1,2} SEP \d{1,2} SEP \d{2,4}|\d{4}-\d{2}-\d{2}|\b(?:Month)\s+\d{1,2},?\s+\d{4}\b`
(with `SEP` the slash-or-dash class, line 362): the numeric and ISO alternatives
carry no word boundaries; only the month alternative does. -/
def graniteTryDateAt (prev : Option Char) (l : List Char) :
    Option (List Char × List Char) :=
  match
    firstSome (fun t => tryNumericDateLens l t.1 t.2.1 t.2.2) numericDateLenChoices
  with
  | some r => some r
  | none =>
    match tryNumericDateLens l 4 2 2 with
    | some (m, rest) =>
      -- the ISO alternative `\d{4}-\d{2}-\d{2}` admits only '-' separators
      if m.contains '/' then none else some (m, rest)
    | none =>
      if wordBoundaryBefore prev then tryMonthDate true l else none

/-- `re.findall` of the Granite date pattern. -/
def graniteFindDates (text : String) : List String :=
  scanPrevAux graniteTryDateAt text.data.length none text.data

/-- Suffix alternation of the Granite organization pattern
`\b[A-Z][a-zA-Z\s&.,]+(?:Corporation|Corp|Inc|LLC|Ltd|Company|Co|Partners|Associates)\b`
(line 386). -/
def graniteOrgSuffixes : List String :=
  ["Corporation", "Corp", "Inc", "LLC", "Ltd", "Company", "Co", "Partners", "Associates"]

/-- `re.findall` of the Granite organization pattern. -/
def graniteFindOrgs (text : String) : List String :=
  scanPrevAux (tryOrgAt graniteOrgSuffixes) text.data.length none text.data

/-- The `legal_terms` presence vocabulary of
`_enhanced_local_entity_extraction` (lines 367–373). -/
def graniteLegalTermVocab : List String :=
  ["confidentiality", "non-disclosure", "proprietary", "trade secret",
   "liability", "indemnification", "breach", "termination",
   "jurisdiction", "arbitration", "governing law", "force majeure",
   "intellectual property", "copyright", "trademark", "patent",
   "warranty", "representation", "covenant", "condition"]

/-- The `obligation_indicators` presence vocabulary (line 380). -/
def graniteObligationIndicators : List String :=
  ["shall", "must", "will", "agree to", "obligated to", "required to"]

/-- Entity record of `GraniteClient._enhanced_local_entity_extraction` (these
dicts carry only `text` and `type` — no confidence field). -/
structure GraniteEntity where
  text : String
  type : String
  deriving Repr, DecidableEq

/-- The `entities` dict of `_enhanced_local_entity_extraction` (lines 340–394). -/
structure GraniteEntities where
  parties : List GraniteEntity
  dates : List GraniteEntity
  amounts : List GraniteEntity
  locations : List GraniteEntity
  legal_terms : List GraniteEntity
  obligations : List GraniteEntity
  penalties : List GraniteEntity
  conditions : List GraniteEntity
  deriving Repr, DecidableEq

/-- `GraniteClient._enhanced_local_entity_extraction` (lines 340–394).  The
`locations`, `penalties` and `conditions` lists are never filled by the code. -/
def graniteLocalEntityExtraction (text : String) : GraniteEntities :=
  { parties := (graniteFindOrgs text).map (fun o => ⟨o, "Organization"⟩)
    dates := (graniteFindDates text).map (fun d => ⟨d, "Date"⟩)
    amounts := (graniteFindAmounts text).map (fun a => ⟨a, "MonetaryAmount"⟩)
    locations := []
    legal_terms :=
      (graniteLegalTermVocab.filter (fun t => strContains (pyLower text) t)).map
        (fun t => ⟨t, "LegalTerm"⟩)
    obligations :=
      (graniteObligationIndicators.filter (fun t => strContains (pyLower text) t)).map
        (fun t => ⟨t, "Obligation"⟩)
    penalties := []
    conditions := [] }

/-! ## Theorems -/

theorem pyMaxBySnd_spec (x : String × Nat) (xs : List (String × Nat)) :
    (∀ p ∈ x :: xs, p.2 ≤ (pyMaxBySnd x xs).2) ∧
      (x :: xs).find? (fun p => decide ((pyMaxBySnd x xs).2 ≤ p.2)) = some (pyMaxBySnd x xs) := by
  induction xs generalizing x with
  | nil =>
    refine ⟨?_, ?_⟩
    · intro p hp
      rcases List.mem_singleton.mp hp with rfl
      simp [pyMaxBySnd]
    · simp [pyMaxBySnd, List.find?]
  | cons y ys ih =>
    by_cases hgt : y.2 > x.2
    · have h := ih y
      have hw : pyMaxBySnd x (y :: ys) = pyMaxBySnd y ys := by
        simp [pyMaxBySnd, hgt]
      refine ⟨?_, ?_⟩
      · intro p hp
        rw [hw]
        rcases List.mem_cons.mp hp with rfl | hp'
        · exact le_trans (le_of_lt hgt) (h.1 y (List.mem_cons_self _ _))
        · exact h.1 p hp'
      · rw [hw]
        have hxlt : x.2 < (pyMaxBySnd y ys).2 :=
          lt_of_lt_of_le hgt (h.1 y (List.mem_cons_self _ _))
        have hx : (decide ((pyMaxBySnd y ys).2 ≤ x.2)) = false := by
          simp [not_le.mpr hxlt]
        rw [List.find?]
        simp only [hx]
        exact h.2
    · have h := ih x
      have hw : pyMaxBySnd x (y :: ys) = pyMaxBySnd x ys := by
        simp [pyMaxBySnd, hgt]
      have hyx : y.2 ≤ x.2 := le_of_not_lt hgt
      refine ⟨?_, ?_⟩
      · intro p hp
        rw [hw]
        rcases List.mem_cons.mp hp with rfl | hp'
        · exact h.1 p (List.mem_cons_self _ _)
        · rcases List.mem_cons.mp hp' with rfl | hp''
          · exact le_trans hyx (h.1 x (List.mem_cons_self _ _))
          · exact h.1 p (List.mem_cons.mpr (Or.inr hp''))
      · rw [hw]
        by_cases hx : (pyMaxBySnd x ys).2 ≤ x.2
        · have hxd : (decide ((pyMaxBySnd x ys).2 ≤ x.2)) = true := decide_eq_true hx
          have hfind := h.2
          rw [List.find?] at hfind
          simp only [hxd] at hfind
          have hxeq : x = pyMaxBySnd x ys := by
            simpa using hfind
          rw [List.find?]
          simp only [hxd]
          exact congrArg some hxeq
        · have hxd : (decide ((pyMaxBySnd x ys).2 ≤ x.2)) = false := by simp [hx]
          have hyd : (decide ((pyMaxBySnd x ys).2 ≤ y.2)) = false := by
            simp only [decide_eq_false_iff_not]
            intro hle
            exact hx (le_trans hle hyx)
          have hfind := h.2
          rw [List.find?] at hfind
          simp only [hxd] at hfind
          rw [List.find?]
          simp only [hxd]
          rw [List.find?]
          simp only [hyd]
          exact hfind

theorem pyMaxBySnd_all_zero (x : String × Nat) (xs : List (String × Nat))
    (h : ∀ p ∈ x :: xs, p.2 = 0) : pyMaxBySnd x xs = x := by
  induction xs generalizing x with
  | nil => rfl
  | cons y ys ih =>
    have hy : y.2 = 0 := h y (by simp)
    have hx : x.2 = 0 := h x (by simp)
    have hgt : ¬ (y.2 > x.2) := by omega
    have : pyMaxBySnd x (y :: ys) = pyMaxBySnd x ys := by
      simp [pyMaxBySnd, hgt]
    rw [this]
    exact ih x (by
      intro p hp
      rcases List.mem_cons.mp hp with rfl | hp'
      · exact hx
      · exact h p (by simp [hp']))

/-! ## Theorems about the document classifiers (C1, C5, C9) and the clause
classifier (C4) -/

/-- C1 (counterexample): on the empty document every per-type score is zero, yet
the Granite local classifier returns `"NDA"` (confidence `0`) and the Hugging Face
local classifier returns `"Non-Disclosure Agreement (NDA)"` (confidence `0.6`) —
neither returns the `GeneralContract` label (`"General Contract"` /
`"Legal Document"`) promised by the claim. -/
theorem all_zero_scores_do_not_yield_general_contract :
    graniteScores "" =
      [("NDA", 0), ("Employment Contract", 0), ("Lease Agreement", 0),
       ("Service Agreement", 0), ("Purchase Agreement", 0), ("Partnership Agreement", 0)] ∧
    graniteLocalClassification "" = ⟨"NDA", 0⟩ ∧
    hfScores "" =
      [("Non-Disclosure Agreement (NDA)", 0), ("Employment Contract", 0),
       ("Lease Agreement", 0), ("Service Agreement", 0), ("Purchase Agreement", 0)] ∧
    hfLocalDocumentClassification "" = ⟨"Non-Disclosure Agreement (NDA)", 3 / 5⟩ ∧
    ("NDA" : String) ≠ "General Contract" ∧
    ("Non-Disclosure Agreement (NDA)" : String) ≠ "Legal Document" := by
  refine ⟨by decide, ?_, by decide, ?_, by decide, by decide⟩
  · show graniteLocalClassification "" = ⟨"NDA", 0⟩
    have h : pyMaxList (graniteScores "") = some ("NDA", 0) := by decide
    simp only [graniteLocalClassification, h]
    norm_num
  · have h : pyMaxList (hfScores "") = some ("Non-Disclosure Agreement (NDA)", 0) := by decide
    simp only [hfLocalDocumentClassification, h]
    norm_num

/-- C1 (amended): if every per-type score is zero, the Granite local classifier
returns the first enumerated type `"NDA"` with confidence `0` (which is ≤ 0.3) and
the Hugging Face local classifier returns `"Non-Disclosure Agreement (NDA)"` with
confidence `0.6`; a (non-null) label is returned in both cases, but it is the NDA
label, not the `GeneralContract` one. -/
theorem all_zero_scores_yield_first_type (text : String)
    (hg : ∀ p ∈ graniteScores text, p.2 = 0)
    (hh : ∀ p ∈ hfScores text, p.2 = 0) :
    graniteLocalClassification text = ⟨"NDA", 0⟩ ∧
    hfLocalDocumentClassification text = ⟨"Non-Disclosure Agreement (NDA)", 3 / 5⟩ := by
  constructor
  · obtain ⟨s, tl, e⟩ :
        ∃ s tl, graniteScores text = ("NDA", s) :: tl := ⟨_, _, rfl⟩
    rw [e] at hg
    have hmax := pyMaxBySnd_all_zero _ _ hg
    have h0 : s = 0 := hg _ (List.mem_cons_self _ _)
    subst h0
    simp only [graniteLocalClassification, e, pyMaxList, hmax]
    norm_num
  · obtain ⟨s, tl, e⟩ :
        ∃ s tl, hfScores text = ("Non-Disclosure Agreement (NDA)", s) :: tl := ⟨_, _, rfl⟩
    rw [e] at hh
    have hmax := pyMaxBySnd_all_zero _ _ hh
    have h0 : s = 0 := hh _ (List.mem_cons_self _ _)
    subst h0
    simp only [hfLocalDocumentClassification, e, pyMaxList, hmax]
    norm_num

/-- Witness for `all_zero_scores_yield_first_type`, at the empty document. -/
theorem all_zero_scores_yield_first_type_witness :
    (∀ p ∈ graniteScores "", p.2 = 0) ∧ (∀ p ∈ hfScores "", p.2 = 0) ∧
      graniteLocalClassification "" = ⟨"NDA", 0⟩ ∧
      hfLocalDocumentClassification "" = ⟨"Non-Disclosure Agreement (NDA)", 3 / 5⟩ :=
  ⟨by decide, by decide,
    (all_zero_scores_yield_first_type "" (by decide) (by decide)).1,
    (all_zero_scores_yield_first_type "" (by decide) (by decide)).2⟩

/-- C5: both local document classifiers return the entry produced by Python's
`max` over the score table, and that entry (i) achieves the maximal raw score and
(ii) is the *first* entry of the enumeration achieving it — `find?` returns the
first element whose score is ≥ the winner's, and the winner's type enumeration
starts with NDA in both tables. -/
theorem document_classifier_first_max_wins (text : String) :
    ∃ g h : String × Nat,
      pyMaxList (graniteScores text) = some g ∧
      (∀ p ∈ graniteScores text, p.2 ≤ g.2) ∧
      (graniteScores text).find? (fun p => decide (g.2 ≤ p.2)) = some g ∧
      (graniteLocalClassification text).classification = g.1 ∧
      pyMaxList (hfScores text) = some h ∧
      (∀ p ∈ hfScores text, p.2 ≤ h.2) ∧
      (hfScores text).find? (fun p => decide (h.2 ≤ p.2)) = some h ∧
      (hfLocalDocumentClassification text).document_type = h.1 := by
  obtain ⟨gh, gt, eg⟩ :
      ∃ gh gt, graniteScores text = gh :: gt := ⟨_, _, rfl⟩
  obtain ⟨hh, ht, eh⟩ :
      ∃ hh ht, hfScores text = hh :: ht := ⟨_, _, rfl⟩
  refine ⟨pyMaxBySnd gh gt, pyMaxBySnd hh ht, ?_, ?_, ?_, ?_, ?_, ?_, ?_, ?_⟩
  · rw [eg]; rfl
  · rw [eg]; exact (pyMaxBySnd_spec _ _).1
  · rw [eg]; exact (pyMaxBySnd_spec _ _).2
  · simp only [graniteLocalClassification, eg, pyMaxList]
  · rw [eh]; rfl
  · rw [eh]; exact (pyMaxBySnd_spec _ _).1
  · rw [eh]; exact (pyMaxBySnd_spec _ _).2
  · simp only [hfLocalDocumentClassification, eh, pyMaxList]

/-- C9: the Hugging Face local document classification clamps its confidence with
`min(0.95, max(0.6, score / 5))`, so the confidence always lies in `[0.6, 0.95]`,
for every input including the empty string. -/
theorem hf_classification_confidence_bounds (text : String) :
    (6 / 10 : ℚ) ≤ (hfLocalDocumentClassification text).confidence ∧
      (hfLocalDocumentClassification text).confidence ≤ 95 / 100 := by
  obtain ⟨hd, tl, e⟩ : ∃ hd tl, hfScores text = hd :: tl := ⟨_, _, rfl⟩
  simp only [hfLocalDocumentClassification, e, pyMaxList]
  constructor
  · exact le_min (by norm_num) (le_max_left _ _)
  · exact min_le_left _ _

/-- C4: a clause whose lowering contains `"confidential"` (regardless of whether
it also contains `"termination"`, as in the claim's hypothesis) is classified as
`"Confidentiality"` — the first rule in the priority chain of
`classify_clause_type` fires before the termination rule is consulted. -/
theorem confidential_and_termination_classifies_confidentiality (clause : String)
    (h1 : strContains (pyLower clause) "confidential" = true)
    (_h2 : strContains (pyLower clause) "termination" = true) :
    classify_clause_type clause = "Confidentiality" := by
  simp [classify_clause_type, h1]

/-- Witness for `confidential_and_termination_classifies_confidentiality` at a
concrete clause containing both trigger words. -/
theorem confidential_and_termination_witness :
    strContains (pyLower "Confidential data survives termination.") "confidential" = true ∧
    strContains (pyLower "Confidential data survives termination.") "termination" = true ∧
    classify_clause_type "Confidential data survives termination." = "Confidentiality" :=
  ⟨by decide, by decide,
    confidential_and_termination_classifies_confidentiality _ (by decide) (by decide)⟩

/-! ## Theorems about the clause segmenter (C2, C6) -/

/-- C2 (counterexample): the single-line document `"a<25 spaces>b"` has stripped
length 27 (> 20), so it survives the length filter, but whitespace collapsing then
shrinks it to `"a b"` of length 3: `split_into_clauses` returns a clause whose
*normalized* length is well below the 20-character threshold. -/
theorem clause_below_threshold_after_normalization :
    split_into_clauses "a                         b" 1000 = ["a b"] ∧
      ("a b" : String).length ≤ 20 := by
  constructor
  · rfl
  · decide

/-- C2 (amended): every clause returned by `split_into_clauses` is the
whitespace-collapse of a string whose length *before collapsing* is strictly
greater than 20; the 20-character threshold is applied to the stripped clause
before internal whitespace runs are collapsed, so the final (normalized) length
may be 20 or less. -/
theorem split_clause_filtered_before_collapse (text : String) (maxLen : Nat)
    (c : String) (hc : c ∈ split_into_clauses text maxLen) :
    ∃ r : String, 20 < r.length ∧ c = collapseWs r := by
  unfold split_into_clauses at hc
  rcases List.mem_filterMap.mp hc with ⟨a, -, ha⟩
  dsimp only at ha
  by_cases h : 20 < (pyStrip a).length
  · rw [if_pos h] at ha
    exact ⟨pyStrip a, h, (Option.some.inj ha).symm⟩
  · rw [if_neg h] at ha
    exact absurd ha (Option.noConfusion)

/-- Witness for `split_clause_filtered_before_collapse` at a concrete document. -/
theorem split_clause_filtered_before_collapse_witness :
    "This clause is long enough to survive" ∈
        split_into_clauses "This clause is long enough to survive" 1000 ∧
      ∃ r : String, 20 < r.length ∧
        "This clause is long enough to survive" = collapseWs r :=
  ⟨by decide,
    split_clause_filtered_before_collapse "This clause is long enough to survive" 1000
      "This clause is long enough to survive" (by decide)⟩

theorem splitTermAux_no_term (l acc : List Char)
    (h : ∀ c ∈ l, isSentTerm c = false) :
    splitTermAux false acc l = [acc.reverse ++ l] := by
  induction l generalizing acc with
  | nil => simp [splitTermAux]
  | cons c cs ih =>
    have hc : isSentTerm c = false := h c (by simp)
    rw [splitTermAux, if_neg (by simp [hc])]
    rw [ih (c :: acc) (fun d hd => h d (by simp [hd]))]
    simp

/-- C6: `split_into_clauses` is a total function (the embedding terminates by
construction for every input), and whenever the accumulated buffer exceeds
`max_length` but contains no sentence terminator (`.`, `!`, `?`), the overlong
handling of lines 172–186 emits the whole stripped buffer as a single clause and
resets the accumulator — no further splitting and no error. -/
theorem oversized_buffer_without_terminator_flushed_whole (maxLen : Nat) :
    (∀ text : String, ∃ cs : List String, split_into_clauses text maxLen = cs) ∧
    ∀ (clauses : List String) (cur : String), maxLen < cur.length →
      (∀ ch ∈ cur.data, isSentTerm ch = false) →
      handleOverflow maxLen clauses cur = (clauses ++ [pyStrip cur], "") := by
  refine ⟨fun text => ⟨_, rfl⟩, ?_⟩
  intro clauses cur hlen hterm
  have hruns : splitSentenceRuns cur = [cur] := by
    unfold splitSentenceRuns
    rw [splitTermAux_no_term _ _ hterm]
    rfl
  unfold handleOverflow
  rw [if_pos (by omega)]
  rw [hruns]
  rfl

/-- Witness for `oversized_buffer_without_terminator_flushed_whole`: a buffer of
seven characters with `max_length = 5` and no terminators is flushed whole. -/
theorem oversized_buffer_flush_witness :
    5 < ("xxxxxxx" : String).length ∧
      handleOverflow 5 ["c1"] "xxxxxxx" = (["c1", "xxxxxxx"], "") :=
  ⟨by decide,
    (oversized_buffer_without_terminator_flushed_whole 5).2 ["c1"] "xxxxxxx"
      (by decide) (by decide)⟩

/-! ## Theorems about the simplifiers (C3, C10) -/

theorem data_eq_nil_iff_empty (s : String) : s.data = [] ↔ s = "" := by
  constructor
  · intro h
    cases s with
    | mk d =>
      cases d with
      | nil => rfl
      | cons c cs => exact List.noConfusion h
  · intro h
    rw [h]

theorem string_ne_empty_of_length_pos {s : String} (h : 0 < s.length) : s ≠ "" := by
  intro he
  rw [he] at h
  simp [String.length] at h

theorem length_pos_of_ne_empty {s : String} (h : s ≠ "") : 0 < s.length := by
  rcases Nat.eq_zero_or_pos s.length with h0 | h0
  · exfalso
    apply h
    rw [← data_eq_nil_iff_empty]
    exact List.length_eq_zero.mp h0
  · exact h0

theorem append_ne_empty_of_right (a b : String) (h : b ≠ "") : a ++ b ≠ "" := by
  apply string_ne_empty_of_length_pos
  have hb := length_pos_of_ne_empty h
  rw [String.length_append]
  omega

theorem append_ne_empty_of_left (a b : String) (h : a ≠ "") : a ++ b ≠ "" := by
  apply string_ne_empty_of_length_pos
  have ha := length_pos_of_ne_empty h
  rw [String.length_append]
  omega

theorem graniteLocalSimplification_ne_empty (s : String) :
    graniteLocalSimplification s ≠ "" := by
  have hbase : graniteSimplificationBase s ≠ "" := by
    unfold graniteSimplificationBase
    exact append_ne_empty_of_right _ _ (by decide)
  unfold graniteLocalSimplification
  dsimp only
  split
  · exact append_ne_empty_of_left _ _ hbase
  · exact append_ne_empty_of_left _ _ hbase

theorem replaceWordAux_ne_nil (pat rep : List Char) (n : Nat) (prevW : Bool)
    (l : List Char) (hrep : rep ≠ []) (hl : l ≠ []) :
    replaceWordAux pat rep n prevW l ≠ [] := by
  match n, l with
  | 0, l => exact hl
  | _ + 1, [] => exact absurd rfl hl
  | n + 1, c :: cs =>
    rw [replaceWordAux]
    split
    · cases rep with
      | nil => exact absurd rfl hrep
      | cons r rs => simp
    · simp

theorem hfApplyReplacements_ne_empty (s : String) (hs : s ≠ "") :
    hfApplyReplacements s ≠ "" := by
  have key : ∀ (ps : List (String × String)), (∀ p ∈ ps, p.2 ≠ "") →
      ∀ t : String, t ≠ "" → ps.foldl (fun acc p => replaceWordCI p.1 p.2 acc) t ≠ "" := by
    intro ps
    induction ps with
    | nil => intro _ t ht; exact ht
    | cons p ps ih =>
      intro hps t ht
      rw [List.foldl_cons]
      refine ih (fun q hq => hps q (by simp [hq])) _ ?_
      have hrep : p.2.data ≠ [] := by
        intro hd
        exact hps p (by simp) ((data_eq_nil_iff_empty p.2).mp hd)
      have htd : t.data ≠ [] := by
        intro hd
        exact ht ((data_eq_nil_iff_empty t).mp hd)
      unfold replaceWordCI
      intro hcon
      have hdata : replaceWordAux p.1.data p.2.data t.data.length false t.data = [] := by
        have := congrArg String.data hcon
        simpa using this
      exact replaceWordAux_ne_nil _ _ _ _ _ hrep htd hdata
  refine key hfReplacements ?_ s hs
  decide

theorem pySplitAux_ne_nil (sep : List Char) (n : Nat) (acc l : List Char) :
    pySplitAux sep n acc l ≠ [] := by
  induction n generalizing acc l with
  | zero => simp [pySplitAux]
  | succ n ih =>
    cases l with
    | nil => simp [pySplitAux]
    | cons c cs =>
      rw [pySplitAux]
      split
      · simp
      · exact ih _ _

theorem pySplitAux_singleton (sep : List Char) (n : Nat) (acc l : List Char)
    (x : List Char) (h : pySplitAux sep n acc l = [x]) : x = acc.reverse ++ l := by
  induction n generalizing acc l with
  | zero =>
    rw [pySplitAux] at h
    exact (List.singleton_inj.mp h).symm
  | succ n ih =>
    cases l with
    | nil =>
      rw [pySplitAux] at h
      rw [← List.singleton_inj.mp h]
      simp
    | cons c cs =>
      rw [pySplitAux] at h
      split at h
      · exfalso
        have hne := pySplitAux_ne_nil sep n [] ((c :: cs).drop sep.length)
        cases hrec : pySplitAux sep n [] ((c :: cs).drop sep.length) with
        | nil => exact hne hrec
        | cons y ys =>
          rw [hrec] at h
          simp at h
      · have := ih (c :: acc) cs h
        simpa [List.append_assoc] using this

theorem pySplitOn_ne_nil (s sep : String) : pySplitOn s sep ≠ [] := by
  unfold pySplitOn
  intro h
  exact pySplitAux_ne_nil _ _ _ _ (List.map_eq_nil_iff.mp h)

theorem pySplitOn_singleton (s sep x : String) (h : pySplitOn s sep = [x]) :
    x = s := by
  unfold pySplitOn at h
  cases hraw : pySplitAux sep.data (s.data.length + 1) [] s.data with
  | nil => exact absurd hraw (pySplitAux_ne_nil _ _ _ _)
  | cons q qs =>
    rw [hraw] at h
    cases qs with
    | nil =>
      simp only [List.map_cons, List.map_nil] at h
      have hx : (⟨q⟩ : String) = x := List.singleton_inj.mp h
      have hq : q = s.data := by
        simpa using pySplitAux_singleton _ _ _ _ _ hraw
      rw [← hx, hq]
    | cons q' qs' => simp at h

theorem conjSplitAux_ne_nil (n : Nat) (l : List Char) : conjSplitAux n l ≠ [] := by
  cases n with
  | zero => simp [conjSplitAux]
  | succ n =>
    rw [conjSplitAux]
    cases findConjAux l with
    | none => simp
    | some r => simp

theorem conjSplitAux_singleton (n : Nat) (l : List Char) (x : String)
    (h : conjSplitAux n l = [x]) : x = ⟨l⟩ := by
  cases n with
  | zero =>
    rw [conjSplitAux] at h
    simpa using h.symm
  | succ n =>
    rw [conjSplitAux] at h
    cases hf : findConjAux l with
    | none =>
      rw [hf] at h
      simpa using h.symm
    | some r =>
      rw [hf] at h
      obtain ⟨pre, w, post⟩ := r
      simp at h

theorem pyJoin_two_ne_empty (x y : String) (t : List String) :
    pyJoin ". " (x :: y :: t) ≠ "" := by
  rw [pyJoin]
  exact append_ne_empty_of_left _ _ (append_ne_empty_of_right _ _ (by decide))

theorem pyJoin_singleton (sep x : String) : pyJoin sep [x] = x := rfl

theorem hfSentenceSplit_ne_nil (u : String) : hfSentenceSplit u ≠ [] := by
  unfold hfSentenceSplit
  split
  · split
    · exact conjSplitAux_ne_nil _ _
    · simp
  · simp

theorem hfSentenceSplit_singleton (u v : String) (h : hfSentenceSplit u = [v]) :
    v = u := by
  unfold hfSentenceSplit at h
  split at h
  · split at h
    · rename_i hlen
      rw [h] at hlen
      simp at hlen
    · exact (List.singleton_inj.mp h).symm
  · exact (List.singleton_inj.mp h).symm

theorem hfLocalClauseSimplification_ne_empty (s : String) (hs : s ≠ "") :
    hfLocalClauseSimplification s ≠ "" := by
  unfold hfLocalClauseSimplification
  have h1 : hfApplyReplacements s ≠ "" := hfApplyReplacements_ne_empty s hs
  cases hparts : pySplitOn (hfApplyReplacements s) ". " with
  | nil => exact absurd hparts (pySplitOn_ne_nil _ _)
  | cons p ps =>
    cases ps with
    | nil =>
      have hp : p = hfApplyReplacements s := pySplitOn_singleton _ _ _ hparts
      rw [List.flatMap_cons, List.flatMap_nil, List.append_nil]
      cases hfp : hfSentenceSplit p with
      | nil => exact absurd hfp (hfSentenceSplit_ne_nil p)
      | cons v vs =>
        cases vs with
        | nil =>
          rw [pyJoin_singleton]
          rw [hfSentenceSplit_singleton p v hfp, hp]
          exact h1
        | cons v' vs' => exact pyJoin_two_ne_empty _ _ _
    | cons p' ps' =>
      have hex : ∃ a b bs, (p :: p' :: ps').flatMap hfSentenceSplit = a :: b :: bs := by
        rw [List.flatMap_cons]
        cases hc : hfSentenceSplit p with
        | nil => exact absurd hc (hfSentenceSplit_ne_nil p)
        | cons a as =>
          cases as with
          | nil =>
            rw [List.flatMap_cons]
            cases hc' : hfSentenceSplit p' with
            | nil => exact absurd hc' (hfSentenceSplit_ne_nil p')
            | cons b bs =>
              exact ⟨a, b, bs ++ ps'.flatMap hfSentenceSplit, by simp⟩
          | cons a2 as2 =>
            exact ⟨a, a2, as2 ++ (hfSentenceSplit p' ++ ps'.flatMap hfSentenceSplit), by simp⟩
      obtain ⟨a, b, bs, he⟩ := hex
      rw [he]
      exact pyJoin_two_ne_empty _ _ _

/-- C3 (counterexample): on the empty input the Granite local simplification
returns a non-empty string (it unconditionally appends the summary section), so
"output is non-empty iff input is non-empty" fails for the empty input. -/
theorem granite_simplification_of_empty_is_nonempty :
    graniteLocalSimplification "" ≠ "" := by decide

/-- C3 (amended): the Granite local simplification returns a non-empty string for
*every* input — including the empty string, for which the claimed equivalence
fails — while the Hugging Face local clause simplification satisfies the claimed
equivalence: its output is non-empty iff its input is non-empty. -/
theorem simplification_nonempty_behaviour (s : String) :
    graniteLocalSimplification s ≠ "" ∧
      (hfLocalClauseSimplification s ≠ "" ↔ s ≠ "") := by
  refine ⟨graniteLocalSimplification_ne_empty s, ?_, hfLocalClauseSimplification_ne_empty s⟩
  intro hout hs
  subst hs
  exact hout (by decide)

/-- C10: the Granite replacement phase substitutes mapped phrases at every raw
substring occurrence with no word-boundary check: the single ordinary word
`"antelope"` contains the mapped phrase `"ante"` as an internal substring, so the
substitution phase rewrites it to `"beforelope"`, and the full simplification
output contains `"beforelope"`, no longer contains `"antelope"`, and differs from
the input. -/
theorem granite_substitution_rewrites_inside_words :
    graniteApplyReplacements "antelope" = "beforelope" ∧
    strContains (graniteLocalSimplification "antelope") "beforelope" = true ∧
    strContains (graniteLocalSimplification "antelope") "antelope" = false ∧
    graniteLocalSimplification "antelope" ≠ "antelope" :=
  ⟨by decide, by decide, by decide, by decide⟩

/-! ## Theorems about the local summarization (C7) -/

theorem insertDesc_perm (x : String × Nat) (l : List (String × Nat)) :
    (insertDesc x l).Perm (x :: l) := by
  induction l with
  | nil => exact List.Perm.refl _
  | cons y ys ih =>
    rw [insertDesc]
    split
    · exact List.Perm.refl _
    · exact (List.Perm.cons y ih).trans (List.Perm.swap x y ys)

theorem sortDescBySnd_perm (l : List (String × Nat)) : (sortDescBySnd l).Perm l := by
  induction l with
  | nil => exact List.Perm.refl _
  | cons a l ih =>
    have : sortDescBySnd (a :: l) = insertDesc a (sortDescBySnd l) := rfl
    rw [this]
    exact (insertDesc_perm a (sortDescBySnd l)).trans (List.Perm.cons a ih)

theorem insertDesc_sorted (x : String × Nat) (l : List (String × Nat))
    (hl : l.Sorted (fun a b => b.2 ≤ a.2)) :
    (insertDesc x l).Sorted (fun a b => b.2 ≤ a.2) := by
  induction l with
  | nil => simp [insertDesc]
  | cons y ys ih =>
    rw [insertDesc]
    rw [List.sorted_cons] at hl
    obtain ⟨hy, hys⟩ := hl
    split
    · rename_i hge
      rw [List.sorted_cons]
      refine ⟨?_, List.sorted_cons.mpr ⟨hy, hys⟩⟩
      intro z hz
      rcases List.mem_cons.mp hz with rfl | hz'
      · exact hge
      · exact le_trans (hy z hz') hge
    · rename_i hlt
      rw [List.sorted_cons]
      refine ⟨?_, ih hys⟩
      intro z hz
      have hz2 : z ∈ x :: ys := (insertDesc_perm x ys).subset hz
      rcases List.mem_cons.mp hz2 with rfl | hz'
      · omega
      · exact hy z hz'

theorem sortDescBySnd_sorted (l : List (String × Nat)) :
    (sortDescBySnd l).Sorted (fun a b => b.2 ≤ a.2) := by
  induction l with
  | nil => simp [sortDescBySnd]
  | cons a l ih =>
    have : sortDescBySnd (a :: l) = insertDesc a (sortDescBySnd l) := rfl
    rw [this]
    exact insertDesc_sorted a _ ih

/-- C7 (counterexample): on the document `"ab"` the claimed value — the plain
`". "`-join of the top five sentences — is `"ab"`, but `_local_summarization`
returns `"ab."`: the code appends a final `'.'` after the join, so the summary
never equals the bare join. -/
theorem summarization_appends_final_period :
    hfLocalSummarization "ab" = "ab." ∧ ("ab." : String) ≠ "ab" := by
  constructor
  · rfl
  · decide

/-- C7 (amended): the local summary equals the `". "`-join of the first
`min 5 n` entries of the *stable* descending sort of the scored sentences,
followed by a final `"."`; the chosen entries score at least as high as every
non-chosen sentence, the chosen-plus-rest split is a permutation of all scored
sentences, and equal-scored sentences keep their original order (stable sort), so
ties at the cutoff are resolved in favour of earlier sentences. -/
theorem local_summarization_top5 (text : String) :
    ∃ chosen rest : List (String × Nat),
      sortDescBySnd (scoredSentences text) = chosen ++ rest ∧
      chosen.length = min 5 (scoredSentences text).length ∧
      (chosen ++ rest).Perm (scoredSentences text) ∧
      (∀ a ∈ chosen, ∀ b ∈ rest, b.2 ≤ a.2) ∧
      hfLocalSummarization text = pyJoin ". " (chosen.map Prod.fst) ++ "." := by
  refine ⟨(sortDescBySnd (scoredSentences text)).take 5,
    (sortDescBySnd (scoredSentences text)).drop 5,
    (List.take_append_drop 5 _).symm, ?_, ?_, ?_, rfl⟩
  · rw [List.length_take]
    rw [(sortDescBySnd_perm (scoredSentences text)).length_eq]
  · rw [List.take_append_drop]
    exact sortDescBySnd_perm _
  · have hs := sortDescBySnd_sorted (scoredSentences text)
    rw [← List.take_append_drop 5 (sortDescBySnd (scoredSentences text))] at hs
    exact (List.pairwise_append.mp hs).2.2

/-! ## Theorem about entity extraction (C8) -/

/-- C8: on the input `"The fee is $1,500.00 due on closing."` the Hugging Face
local entity extraction returns exactly one money-typed entity, with text
`"$1,500.00"` and the fixed per-family confidence 0.9 (and that entity is among
the returned entities); the Granite local extraction likewise returns exactly one
`MonetaryAmount` entity with that text (its entity dicts carry no confidence
field). -/
theorem money_entity_extracted :
    (hfLocalEntityExtraction "The fee is $1,500.00 due on closing.").filter
        (fun e => e.type == "MONEY") = [⟨"$1,500.00", "MONEY", 9 / 10⟩] ∧
    (⟨"$1,500.00", "MONEY", 9 / 10⟩ : HFEntity) ∈
        hfLocalEntityExtraction "The fee is $1,500.00 due on closing." ∧
    (graniteLocalEntityExtraction "The fee is $1,500.00 due on closing.").amounts =
        [⟨"$1,500.00", "MonetaryAmount"⟩] := by
  have hfilter :
      (hfLocalEntityExtraction "The fee is $1,500.00 due on closing.").filter
        (fun e => e.type == "MONEY") = [⟨"$1,500.00", "MONEY", 9 / 10⟩] := rfl
  refine ⟨hfilter, ?_, by decide⟩
  apply List.mem_of_mem_filter (p := fun e => e.type == "MONEY")
  rw [hfilter]
  exact List.mem_singleton.mpr rfl

end ClauseWise
